import Mathlib

/-!
Shallow embedding of the `FeatureFlagPlugin` commit filter
(`src/plugins/feature-flags.ts` and its compiled/variant forms).

Strings are modelled as lists of characters (`Str`).  The JavaScript regex
`/Feature-Flag:\s*(\w+)/i` is modelled by `findFlag`: a left-to-right scan
that, at each start position, matches the literal label case-insensitively
(the label is ASCII, so per-character lower-casing coincides with the regex
`i` flag), then skips `\s*` greedily (`\s` and `\w` are disjoint character
classes, so greedy skipping is equivalent to the backtracking regex) and
requires a non-empty run of word characters; when the run is empty the scan
resumes at the next start position, exactly as the regex engine does.
-/

namespace FeatureFlags

/-- Strings as character lists. -/
abbrev Str := List Char

/-- The fields of a commit record that the plugin reads: `sha`, `message`,
and the optional pull-request body (`commit.pullRequest?.body`). -/
structure Commit where
  sha : Str
  message : Str
  prBody : Option Str
deriving DecidableEq

/-- JS regex `\w` (ASCII word character). -/
def isWordChar (c : Char) : Bool :=
  c.isAlphanum || c = '_'

/-- JS regex `\s`, restricted to the ASCII whitespace characters
(the inputs considered here are ASCII). -/
def isSpaceChar (c : Char) : Bool :=
  c = ' ' || c = '\t' || c = '\n' || c = '\r' || c = '\x0b' || c = '\x0c'

/-- The literal label of the marker regex, lower-cased. -/
def labelChars : Str := "feature-flag:".data

/-- Case-insensitive match of a lower-case pattern against the front of the
input; returns the rest of the input on success. -/
def startsWithCI : Str → Str → Option Str
  | [], s => some s
  | _ :: _, [] => none
  | p :: ps, c :: cs => if c.toLower == p then startsWithCI ps cs else none

/-- Exact (case-sensitive) match of a pattern against the front of the input. -/
def startsWithL : Str → Str → Bool
  | [], _ => true
  | _ :: _, [] => false
  | p :: ps, c :: cs => p == c && startsWithL ps cs

/-- `message.match(/Feature-Flag:\s*(\w+)/i)`: the captured group of the
first match, if any. -/
def findFlag : Str → Option Str
  | [] => none
  | c :: cs =>
    match startsWithCI labelChars (c :: cs) with
    | some rest =>
      let name := (rest.dropWhile isSpaceChar).takeWhile isWordChar
      if name = [] then findFlag cs else some name
    | none => findFlag cs

/-- The environment-variable name marker (`key.startsWith('FEATURE_')`). -/
def featureKeyChars : Str := "FEATURE_".data

/-- The literal string `'true'`. -/
def trueChars : Str := "true".data

/-- The constructor's enabled-flag set: names of environment variables that
start with `FEATURE_` and whose value is exactly `'true'`
(`this.enabledFlags`). The environment is a key/value association list. -/
def buildEnabledFlags (env : List (Str × Str)) : List Str :=
  (env.filter fun kv => startsWithL featureKeyChars kv.1 && kv.2 == trueChars).map Prod.fst

/-- Modelled from the spec: the claim C1 reading of the enabled set — the
names of all environment variables whose value is exactly `'true'`, with no
condition on the variable's name.  Used only to compare the claim's words
with `buildEnabledFlags`, which is the constructor's actual set. -/
def specEnabledNames (env : List (Str × Str)) : List Str :=
  (env.filter fun kv => kv.2 == trueChars).map Prod.fst

/-- `shouldIncludeCommit` of `src/src/plugins/feature-flags.ts`: inspect the
raw commit message only; keep when no marker is found, otherwise keep
exactly when the captured flag name is in the enabled set (`Set.has`). -/
def shouldIncludeCommit (enabled : List Str) (c : Commit) : Bool :=
  match findFlag c.message with
  | none => true
  | some flag => enabled.contains flag

/-- First occurrence of a (non-empty) separator: returns the part before it
and the part after it.  Models one `String.split` boundary. -/
def splitFirst (tok : Str) : Str → Option (Str × Str)
  | [] => none
  | c :: cs =>
    if startsWithL tok (c :: cs) then some ([], (c :: cs).drop tok.length)
    else
      match splitFirst tok cs with
      | some (pre, post) => some (c :: pre, post)
      | none => none

/-- JS `String.trim` on ASCII input. -/
def trimChars (s : Str) : Str :=
  ((s.dropWhile isSpaceChar).reverse.dropWhile isSpaceChar).reverse

/-- Delimiter opening an override block in a pull-request body. -/
def beginTok : Str := "BEGIN_COMMIT_OVERRIDE".data

/-- Delimiter closing an override block in a pull-request body. -/
def endTok : Str := "END_COMMIT_OVERRIDE".data

/-- `(body.split('BEGIN_COMMIT_OVERRIDE')[1] || '').split('END_COMMIT_OVERRIDE')[0].trim()`:
element `[1]` of the first split is the segment between the first and second
occurrence of the delimiter (to the end when there is no second occurrence,
the empty string when there is none at all). -/
def overrideOf (body : Str) : Str :=
  let seg1 :=
    match splitFirst beginTok body with
    | none => []
    | some (_, rest) =>
      match splitFirst beginTok rest with
      | none => rest
      | some (mid, _) => mid
  let seg2 :=
    match splitFirst endTok seg1 with
    | none => seg1
    | some (pre, _) => pre
  trimChars seg2

/-- `shouldIncludeCommit` of the compiled variant (`src/unnamed/part_000`):
when the commit has a non-empty pull-request body whose override block is
non-empty after trimming, inspect the override text instead of the raw
message; then decide as in `shouldIncludeCommit`. -/
def shouldIncludeCommitOverride (enabled : List Str) (c : Commit) : Bool :=
  let messageToCheck :=
    match c.prBody with
    | some body =>
      if body = [] then c.message
      else
        let ov := overrideOf body
        if ov = [] then c.message else ov
    | none => c.message
  match findFlag messageToCheck with
  | none => true
  | some flag => enabled.contains flag

/-- The in-place compaction loop of `preconfigure`
(`for readIndex ...: if include then commits[writeIndex] = commits[readIndex]; writeIndex++`).
The first argument counts the remaining loop iterations: the loop body runs
once per index below the (constant) array length, so running it with fuel
`arr.length` from `r = 0` is the source loop exactly.  `List.set` models the
in-bounds array write. -/
def compactLoopAux (p : Commit → Bool) : Nat → List Commit → Nat → Nat → List Commit × Nat
  | 0, arr, w, _ => (arr, w)
  | k + 1, arr, w, r =>
    if h : r < arr.length then
      if p (arr.get ⟨r, h⟩) then
        compactLoopAux p k (arr.set w (arr.get ⟨r, h⟩)) (w + 1) (r + 1)
      else
        compactLoopAux p k arr w (r + 1)
    else (arr, w)

/-- One path's worth of `preconfigure`: run the compaction loop over the
commit array and truncate it to the final write index
(`commits.length = writeIndex`). -/
def preconfigureFilter (p : Commit → Bool) (commits : List Commit) : List Commit :=
  let res := compactLoopAux p commits.length commits 0 0
  res.1.take res.2

/-- The commit-map transformation of `preconfigure`: every path keeps its
key, its commit list is filtered in place. -/
def preconfigureCommits (enabled : List Str) (m : List (Str × List Commit)) :
    List (Str × List Commit) :=
  m.map fun pc => (pc.1, preconfigureFilter (shouldIncludeCommit enabled) pc.2)

/-- `preconfigure` of `src/src/plugins/feature-flags.ts`: filters each
path's commit list in place and returns `strategiesByPath` unchanged.  The
strategy type is abstract (`α`): the plugin never reads or writes a
strategy. -/
def preconfigure {α : Type} (enabled : List Str) (strategiesByPath : List (Str × α))
    (commitsByPath : List (Str × List Commit)) :
    List (Str × α) × List (Str × List Commit) :=
  (strategiesByPath, preconfigureCommits enabled commitsByPath)

lemma take_set_succ (x : Commit) : ∀ (l : List Commit) (w : Nat), w < l.length →
    (l.set w x).take (w + 1) = l.take w ++ [x] := by
  intro l
  induction l with
  | nil => intro w h; simp at h
  | cons a t ih =>
    intro w h
    cases w with
    | zero => simp
    | succ w =>
      simp only [List.set_cons_succ, List.take_succ_cons, List.cons_append, List.cons.injEq,
        true_and]
      exact ih w (Nat.lt_of_succ_lt_succ h)

lemma drop_eq_head_tail {arr orig : List Commit} {r : Nat} (h1 : r < arr.length)
    (h2 : r < orig.length) (h : arr.drop r = orig.drop r) :
    arr.get ⟨r, h1⟩ = orig.get ⟨r, h2⟩ ∧ arr.drop (r + 1) = orig.drop (r + 1) := by
  rw [List.drop_eq_getElem_cons h1, List.drop_eq_getElem_cons h2] at h
  injection h with hh ht
  exact ⟨by simpa [List.get_eq_getElem] using hh, ht⟩

lemma compactLoopAux_invariant (p : Commit → Bool) :
    ∀ (k : Nat) (orig arr : List Commit) (w r : Nat),
      arr.length = orig.length →
      orig.length ≤ r + k →
      w ≤ r →
      arr.take w = (orig.take r).filter p →
      arr.drop r = orig.drop r →
      (compactLoopAux p k arr w r).1.take (compactLoopAux p k arr w r).2 = orig.filter p := by
  intro k
  induction k with
  | zero =>
    intro orig arr w r hlen hfuel hwr htake hdrop
    simp only [compactLoopAux]
    rw [htake, List.take_of_length_le (by omega)]
  | succ k ih =>
    intro orig arr w r hlen hfuel hwr htake hdrop
    by_cases h : r < arr.length
    · have h2 : r < orig.length := hlen ▸ h
      obtain ⟨hget, htail⟩ := drop_eq_head_tail h h2 hdrop
      have htkr : orig.take (r + 1) = orig.take r ++ [orig.get ⟨r, h2⟩] := by
        rw [List.take_succ, List.getElem?_eq_getElem h2]
        simp [List.get_eq_getElem]
      by_cases hp : p (arr.get ⟨r, h⟩) = true
      · rw [show compactLoopAux p (k + 1) arr w r
              = compactLoopAux p k (arr.set w (arr.get ⟨r, h⟩)) (w + 1) (r + 1) from by
            rw [compactLoopAux, dif_pos h, if_pos hp]]
        apply ih orig (arr.set w (arr.get ⟨r, h⟩)) (w + 1) (r + 1)
        · simpa using hlen
        · omega
        · omega
        · rw [take_set_succ _ arr w (lt_of_le_of_lt hwr h), htake, htkr, List.filter_append]
          rw [hget] at hp
          simp only [List.get_eq_getElem] at hget hp
          simp [List.filter_cons, hp, hget]
        · rw [List.drop_set, if_pos (by omega)]
          exact htail
      · rw [show compactLoopAux p (k + 1) arr w r = compactLoopAux p k arr w (r + 1) from by
            rw [compactLoopAux, dif_pos h, if_neg hp]]
        apply ih orig arr w (r + 1) hlen (by omega) (by omega)
        · rw [htake, htkr, List.filter_append]
          rw [hget] at hp
          simp only [List.get_eq_getElem, Bool.not_eq_true] at hp
          simp [List.filter_cons, hp]
        · exact htail
    · rw [show compactLoopAux p (k + 1) arr w r = (arr, w) from by
          rw [compactLoopAux, dif_neg h]]
      rw [htake, List.take_of_length_le (by omega)]

/-- The compaction loop run with full fuel from index `0` computes
`List.filter`. -/
lemma preconfigureFilter_eq_filter (p : Commit → Bool) (commits : List Commit) :
    preconfigureFilter p commits = commits.filter p := by
  unfold preconfigureFilter
  exact compactLoopAux_invariant p commits.length commits commits 0 0 rfl
    (by omega) (by omega) (by simp) rfl

lemma contains_iff_mem (l : List Str) (a : Str) : l.contains a = true ↔ a ∈ l := by
  induction l with
  | nil => simp [List.contains]
  | cons b t ih => simp [List.contains] at ih ⊢

lemma filter_self_idem (p : Commit → Bool) (l : List Commit) :
    (l.filter p).filter p = l.filter p := by
  induction l with
  | nil => rfl
  | cons a t ih =>
    by_cases hp : p a = true <;> simp [List.filter_cons, hp, ih]

lemma startsWithCI_self : ∀ (lab rest : Str),
    startsWithCI (lab.map Char.toLower) (lab ++ rest) = some rest := by
  intro lab
  induction lab with
  | nil => intro rest; rfl
  | cons c cs ih => intro rest; simp [startsWithCI, ih]

lemma findFlag_label_front (lab : Str) (hlab : lab.map Char.toLower = labelChars) (rest : Str)
    (hname : (rest.dropWhile isSpaceChar).takeWhile isWordChar ≠ []) :
    findFlag (lab ++ rest) = some ((rest.dropWhile isSpaceChar).takeWhile isWordChar) := by
  cases lab with
  | nil => exact absurd hlab (by decide)
  | cons l ls =>
    have hsw : startsWithCI labelChars (l :: (ls ++ rest)) = some rest := by
      rw [← hlab]
      exact startsWithCI_self (l :: ls) rest
    show findFlag (l :: (ls ++ rest)) = _
    unfold findFlag
    rw [hsw]
    simp [hname]

/-- The environment of the spec's main scenario: exactly `FEATURE_X=true`. -/
def envC6 : List (Str × Str) := [(("FEATURE_X").data, ("true").data)]

/-- Commit A of the scenario: no marker. -/
def commitA : Commit := ⟨("a1").data, ("docs: update readme").data, none⟩

/-- Commit B of the scenario: marker naming the flag of `FEATURE_X`. -/
def commitB : Commit := ⟨("b2").data, ("feat: new api\n\nFeature-Flag: FEATURE_X").data, none⟩

/-- Commit C of the scenario: marker naming the flag of `FEATURE_Y` (unset). -/
def commitC : Commit := ⟨("c3").data, ("feat: other\n\nFeature-Flag: FEATURE_Y").data, none⟩

/-- The environment of the C1 counterexample: a variable valued `'true'`
whose name does not start with `FEATURE_`. -/
def envC1 : List (Str × Str) := [(("NOT_A_FEATURE").data, ("true").data)]

/-- A commit whose marker names that variable. -/
def commitC1 : Commit := ⟨("n0").data, ("feat: test\n\nFeature-Flag: NOT_A_FEATURE").data, none⟩

/-- A commit with a marker-free raw message and a pull-request body whose
override block carries a marker for a disabled flag (the repo's own test
input for override handling). -/
def commitC3 : Commit :=
  ⟨("d4").data, ("Another commit").data,
    some ("BEGIN_COMMIT_OVERRIDE\nfeat: override with disabled flag\n\nFeature-Flag: FEATURE_DISABLED\nEND_COMMIT_OVERRIDE").data⟩

/-- C1 fails as stated: with environment `NOT_A_FEATURE=true` and a commit
whose marker names `NOT_A_FEATURE`, the flag name is the name of an
environment variable whose value is exactly `'true'` (the claim's reading of
the enabled set), yet the filter discards the commit — the constructor also
requires the variable name to start with `FEATURE_`. -/
theorem c1_counterexample :
    findFlag commitC1.message = some (("NOT_A_FEATURE").data) ∧
    ¬ (shouldIncludeCommit (buildEnabledFlags envC1) commitC1 = true ↔
        (("NOT_A_FEATURE").data) ∈ specEnabledNames envC1) := by
  decide

/-- C1 (amended): for every commit whose message carries a marker, the
filter keeps it if and only if the marker's flag name is the name of an
environment variable that starts with `FEATURE_` and whose value was exactly
the string `'true'`; any other value, an unset variable, or a variable
outside the `FEATURE_` namespace means the commit is discarded. -/
theorem c1_marker_enabled_iff (env : List (Str × Str)) (c : Commit) (flag : Str)
    (hfind : findFlag c.message = some flag) :
    shouldIncludeCommit (buildEnabledFlags env) c = true ↔
      ∃ v, (flag, v) ∈ env ∧ startsWithL featureKeyChars flag = true ∧ v = trueChars := by
  unfold shouldIncludeCommit
  rw [hfind]
  rw [contains_iff_mem]
  constructor
  · intro hmem
    obtain ⟨kv, hkv, hfst⟩ := List.mem_map.mp hmem
    obtain ⟨hkvenv, hpred⟩ := List.mem_filter.mp hkv
    rw [Bool.and_eq_true] at hpred
    obtain ⟨hpre, hval⟩ := hpred
    refine ⟨kv.2, ?_, ?_, ?_⟩
    · have hkv2 : (flag, kv.2) = kv := by
        rw [← hfst]
      rw [hkv2]
      exact hkvenv
    · exact hfst ▸ hpre
    · exact eq_of_beq hval
  · rintro ⟨v, hvmem, hpre, hv⟩
    exact List.mem_map.mpr ⟨(flag, v),
      List.mem_filter.mpr ⟨hvmem, by simp [hpre, hv]⟩, rfl⟩

/-- Witness for the amended C1 at a concrete input. -/
theorem c1_marker_enabled_iff_witness :
    shouldIncludeCommit (buildEnabledFlags envC6) commitB = true ↔
      ∃ v, ((("FEATURE_X").data, v) ∈ envC6 ∧
        startsWithL featureKeyChars (("FEATURE_X").data) = true ∧ v = trueChars) := by
  have h := c1_marker_enabled_iff envC6 commitB (("FEATURE_X").data) (by decide)
  simpa [and_assoc] using h

/-- C2: a commit whose message carries no marker is always kept, and
filtering a list of marker-free commits returns the list unchanged. -/
theorem c2_no_marker_noop (enabled : List Str) :
    (∀ c : Commit, findFlag c.message = none → shouldIncludeCommit enabled c = true) ∧
    (∀ commits : List Commit, (∀ c ∈ commits, findFlag c.message = none) →
      preconfigureFilter (shouldIncludeCommit enabled) commits = commits) := by
  have hkeep : ∀ c : Commit, findFlag c.message = none → shouldIncludeCommit enabled c = true := by
    intro c hc
    unfold shouldIncludeCommit
    rw [hc]
  refine ⟨hkeep, ?_⟩
  intro commits hall
  rw [preconfigureFilter_eq_filter]
  exact List.filter_eq_self.mpr fun c hc => hkeep c (hall c hc)

/-- Witness for C2 at a concrete marker-free input. -/
theorem c2_no_marker_noop_witness :
    shouldIncludeCommit [] commitA = true ∧
    preconfigureFilter (shouldIncludeCommit []) [commitA] = [commitA] :=
  ⟨(c2_no_marker_noop []).1 commitA (by decide),
   (c2_no_marker_noop []).2 [commitA] (by decide)⟩

/-- C3: at the repo's own override test input — raw message without any
marker, pull-request body whose override block names a disabled flag — the
override-aware variant of `shouldIncludeCommit` (`src/unnamed/part_000`,
which the claim and the test suite describe) discards the commit, while
`shouldIncludeCommit` of `src/src/plugins/feature-flags.ts` ignores the
override block and keeps it. -/
theorem c3_override_divergence :
    shouldIncludeCommitOverride [] commitC3 = false ∧
    shouldIncludeCommit [] commitC3 = true := by
  decide

/-- C4: the surviving commits of a path's list appear in the output in their
input order — the compaction pass yields a sublist of the input. -/
theorem c4_stable_order (enabled : List Str) (commits : List Commit) :
    (preconfigureFilter (shouldIncludeCommit enabled) commits).Sublist commits := by
  rw [preconfigureFilter_eq_filter]
  exact List.filter_sublist commits

/-- C5: the per-path filtering of `preconfigure` is idempotent on the
path-keyed commit collection. -/
theorem c5_idempotent (enabled : List Str) (m : List (Str × List Commit)) :
    preconfigureCommits enabled (preconfigureCommits enabled m) =
      preconfigureCommits enabled m := by
  unfold preconfigureCommits
  rw [List.map_map]
  apply List.map_congr_left
  intro pc _
  simp only [Function.comp, preconfigureFilter_eq_filter]
  rw [filter_self_idem]

/-- C6: with exactly `FEATURE_X=true` in the environment, the list
`[A (no marker), B (marker of the flag of FEATURE_X), C (marker of the flag
of FEATURE_Y)]` filters to exactly `[A, B]` in that order. -/
theorem c6_scenario :
    preconfigureFilter (shouldIncludeCommit (buildEnabledFlags envC6))
      [commitA, commitB, commitC] = [commitA, commitB] := by
  decide

/-- C7: a message whose marker text is malformed — the label
`Feature-Flag:` with no flag name after it — yields no marker, and the
commit is kept whatever the enabled set; the function is total, so no error
can be raised. -/
theorem c7_malformed_marker (enabled : List Str) (sha : Str) (pr : Option Str) :
    shouldIncludeCommit enabled ⟨sha, ("feat: incomplete\n\nFeature-Flag: ").data, pr⟩ = true ∧
    findFlag (("feat: incomplete\n\nFeature-Flag: ").data) = none := by
  constructor
  · unfold shouldIncludeCommit
    rw [show findFlag (("feat: incomplete\n\nFeature-Flag: ").data) = none from by decide]
  · decide

/-- C8: the marker label matches case-insensitively — any spelling of the
label that lower-cases to `feature-flag:` yields the same decision as the
lower-case spelling — while the flag name is compared case-sensitively: a
marker name differing from the enabled flag only in letter case is
discarded. -/
theorem c8_case_sensitivity (enabled : List Str) (sha : Str) (pr : Option Str) (lab : Str)
    (hlab : lab.map Char.toLower = labelChars) :
    shouldIncludeCommit enabled ⟨sha, lab ++ (" FEATURE_TEST").data, pr⟩ =
      shouldIncludeCommit enabled ⟨sha, ("feature-flag: FEATURE_TEST").data, pr⟩ ∧
    shouldIncludeCommit [(("FEATURE_X").data)]
      ⟨sha, ("Feature-Flag: feature_x").data, pr⟩ = false := by
  constructor
  · have h1 : findFlag (lab ++ (" FEATURE_TEST").data) = some (("FEATURE_TEST").data) := by
      rw [findFlag_label_front lab hlab (( " FEATURE_TEST").data) (by decide)]
      decide
    have h2 : findFlag (("feature-flag: FEATURE_TEST").data) = some (("FEATURE_TEST").data) := by
      decide
    unfold shouldIncludeCommit
    rw [h1, h2]
  · unfold shouldIncludeCommit
    rw [show findFlag (("Feature-Flag: feature_x").data) = some (("feature_x").data) from by
      decide]
    decide

/-- Witness for C8 with the upper-case label spelling. -/
theorem c8_case_sensitivity_witness :
    (shouldIncludeCommit [] ⟨("s").data, ("FEATURE-FLAG:").data ++ (" FEATURE_TEST").data, none⟩ =
      shouldIncludeCommit [] ⟨("s").data, ("feature-flag: FEATURE_TEST").data, none⟩) ∧
    shouldIncludeCommit [(("FEATURE_X").data)]
      ⟨("s").data, ("Feature-Flag: feature_x").data, none⟩ = false :=
  c8_case_sensitivity [] (("s").data) none (("FEATURE-FLAG:").data) (by decide)

/-- C9: `preconfigure` returns the strategies mapping unchanged — same keys,
same strategy objects, for an arbitrary strategy type — and the commit
mapping it produces has exactly the path keys of its input; nothing else is
read or written. -/
theorem c9_frame {α : Type} (enabled : List Str) (strategiesByPath : List (Str × α))
    (commitsByPath : List (Str × List Commit)) :
    (preconfigure enabled strategiesByPath commitsByPath).1 = strategiesByPath ∧
    (preconfigure enabled strategiesByPath commitsByPath).2.map Prod.fst =
      commitsByPath.map Prod.fst := by
  constructor
  · rfl
  · unfold preconfigure preconfigureCommits
    rw [List.map_map]
    rfl

/-- C10: the in-place read-index/write-index compaction loop of
`preconfigure` computes exactly the fresh `Array.filter` pass with the same
`shouldIncludeCommit` predicate: the same commits survive in the same
order. -/
theorem c10_compaction_eq_filter (enabled : List Str) (commits : List Commit) :
    preconfigureFilter (shouldIncludeCommit enabled) commits =
      commits.filter (shouldIncludeCommit enabled) :=
  preconfigureFilter_eq_filter (shouldIncludeCommit enabled) commits

end FeatureFlags
